import Mathlib

/-!
Verification of the GitHub API access layer (`GitHubAPI` class): the
time-bounded request cache (`getCached`/`setCache`), the fetching layer
(`request`), the repository-URL parser (`parseRepoURL`), the status
classification helpers (`getStatusClass`/`getStatusText`) and the
relative-time formatter (`formatDate`).

Modelling conventions:
* JavaScript strings are modelled as `String` (for keys and status values)
  or `List Char` (for the character-level URL parser).
* `Date.now()` timestamps are `Nat` milliseconds, passed explicitly to each
  operation that reads the clock.
* The `Map` held in `this.cache` is an association list with `Map.get` /
  `Map.set` semantics (`mapGet` / `mapSet`).
* `fetch` together with `response.json()` is an oracle value of type
  `FetchResult` describing what the single network call of one `request`
  invocation would produce: an HTTP response with a status code and parsed
  JSON body, or a transport-level rejection.
* Thrown errors are values: `Error('GitHub API error: ' + status)` is
  embedded as `ReqError.apiError status` (its message is recovered by
  `ReqError.message`), a propagated transport rejection as
  `ReqError.networkError msg`, and `request` returns `Except ReqError Json`.
-/

/-- JSON values, as produced by `response.json()` and stored in the cache. -/
inductive Json where
  | null
  | bool (b : Bool)
  | num (n : Int)
  | str (s : String)
  | arr (elems : List Json)
  | obj (fields : List (String × Json))

/-- JavaScript truthiness of a JSON value, as tested by `if (cached)` in
`request` (line 51 of the source): `null`, `false`, `0` and the empty
string are falsy; every other JSON value is truthy. -/
def jsTruthy : Json → Bool
  | Json.null => false
  | Json.bool b => b
  | Json.num n => n != 0
  | Json.str s => s != ""
  | Json.arr _ => true
  | Json.obj _ => true

/-- One entry of `this.cache`: the object `{data, timestamp}` stored by
`setCache`. -/
structure CacheEntry where
  data : Json
  timestamp : Nat

/-- The `Map` held in `this.cache`, as an association list. -/
def Cache : Type := List (String × CacheEntry)

/-- `Map.prototype.get`: the value stored under `key`, if any. -/
def mapGet : List (String × CacheEntry) → String → Option CacheEntry
  | [], _ => none
  | (k, e) :: rest, key => if k = key then some e else mapGet rest key

/-- `Map.prototype.set`: replace the value stored under `key` in place, or
append a fresh binding when the key is absent. -/
def mapSet : List (String × CacheEntry) → String → CacheEntry → List (String × CacheEntry)
  | [], key, e => [(key, e)]
  | (k, e0) :: rest, key, e =>
    if k = key then (key, e) :: rest else (k, e0) :: mapSet rest key e

/-- `this.cacheTimeout = 5 * 60 * 1000` (milliseconds). -/
def cacheTimeout : Nat := 5 * 60 * 1000

/-- `getCached(key)`: return `cached.data` when an entry exists and
`Date.now() - cached.timestamp < this.cacheTimeout`, and `null` (here:
`none`) otherwise.  The function only reads the cache; it never mutates
it, so it takes the cache and the clock as plain arguments. -/
def getCached (cache : Cache) (now : Nat) (key : String) : Option Json :=
  match mapGet cache key with
  | some cached => if now - cached.timestamp < cacheTimeout then some cached.data else none
  | none => none

/-- `setCache(key, data)`: `this.cache.set(key, {data, timestamp: Date.now()})`. -/
def setCache (cache : Cache) (now : Nat) (key : String) (data : Json) : Cache :=
  mapSet cache key ⟨data, now⟩

/-- The outcome the underlying `fetch` (plus `response.json()`) would have
for the single network call of one `request` invocation. -/
inductive FetchResult where
  | success (status : Nat) (body : Json)
  | transportError (msg : String)

/-- The errors `request` can throw: the `Error` built for a non-ok HTTP
response (carrying the numeric status), or the propagated transport
rejection. -/
inductive ReqError where
  | apiError (status : Nat)
  | networkError (msg : String)
deriving DecidableEq

/-- The `message` property of the thrown error: the non-ok branch throws
`new Error('GitHub API error: ' + response.status)`; the transport error is
rethrown unchanged. -/
def ReqError.message : ReqError → String
  | ReqError.apiError status => "GitHub API error: " ++ toString status
  | ReqError.networkError msg => msg

/-- `response.ok`: the HTTP status is in the range 200..299. -/
def responseOk (status : Nat) : Bool := 200 ≤ status && status < 300

/-- The observable outcome of one `request` call: the returned value or
thrown error, the cache afterwards, and whether `fetch` was invoked. -/
structure ReqResult where
  result : Except ReqError Json
  cache : Cache
  networkCalled : Bool

/-- The `try { fetch ... }` part of `request`: on an ok response the parsed
body is stored with `setCache` and returned; on a non-ok response an
`Error` carrying the status is thrown; a transport rejection is rethrown.
In every case `fetch` was invoked. -/
def requestFetch (cache : Cache) (now : Nat) (cacheKey : String) (net : FetchResult) : ReqResult :=
  match net with
  | FetchResult.success status body =>
    if responseOk status then
      ⟨Except.ok body, setCache cache now cacheKey body, true⟩
    else
      ⟨Except.error (ReqError.apiError status), cache, true⟩
  | FetchResult.transportError msg =>
    ⟨Except.error (ReqError.networkError msg), cache, true⟩

/-- `request(endpoint)`: `cacheKey = endpoint`; `cached = getCached(cacheKey)`;
`if (cached) return cached;` — note this is a JavaScript truthiness test on
the returned payload — otherwise perform the network call. -/
def request (cache : Cache) (now : Nat) (endpoint : String) (net : FetchResult) : ReqResult :=
  let cacheKey := endpoint
  match getCached cache now cacheKey with
  | some cached =>
    if jsTruthy cached then ⟨Except.ok cached, cache, false⟩
    else requestFetch cache now cacheKey net
  | none => requestFetch cache now cacheKey net

/-- Whether the network call of `request` would fail: a non-ok HTTP status
or a transport rejection. -/
def fetchFails : FetchResult → Bool
  | FetchResult.success status _ => !responseOk status
  | FetchResult.transportError _ => true

/-- The error `request` throws when its network call fails. -/
def fetchFailureError : FetchResult → ReqError
  | FetchResult.success status _ => ReqError.apiError status
  | FetchResult.transportError msg => ReqError.networkError msg

/-- A repository reference `{owner, repo}` as returned by `parseRepoURL`,
over `List Char` strings. -/
structure RepoRef where
  owner : List Char
  repo : List Char
deriving DecidableEq

/-- The tail of the literal regex token `github.com/`. -/
def ghRest : List Char := ['i', 't', 'h', 'u', 'b', '.', 'c', 'o', 'm', '/']

/-- The literal token `github\.com\/` of the regex in `parseRepoURL`. -/
def ghToken : List Char := 'g' :: ghRest

/-- The greedy match of `[^\/]+`-style scanning: split a string into its
maximal slash-free first run and the remainder (which is empty or starts
with a slash). -/
def takeSeg : List Char → List Char × List Char
  | [] => ([], [])
  | c :: cs =>
    if c = '/' then ([], c :: cs)
    else (c :: (takeSeg cs).1, (takeSeg cs).2)

/-- Attempt the `([^\/]+)\/([^\/]+)` part of the regex at the start of `t`:
a nonempty slash-free run, a slash, and a nonempty slash-free run, returning
the two (greedy, maximal) capture groups. -/
def matchSegments (t : List Char) : Option (List Char × List Char) :=
  if (takeSeg t).1 = [] then none
  else
    match (takeSeg t).2 with
    | [] => none
    | _ :: r2 =>
      if (takeSeg r2).1 = [] then none
      else some ((takeSeg t).1, (takeSeg r2).1)

/-- Attempt the whole regex `github\.com\/([^\/]+)\/([^\/]+)` anchored at
the start of `s`. -/
def tryMatchAt (s : List Char) : Option (List Char × List Char) :=
  if ghToken.isPrefixOf s then matchSegments (s.drop ghToken.length) else none

/-- `url.match(regex)`: the leftmost match of the regex in the string, as
found by trying each start position from the left. -/
def scanRepo : List Char → Option (List Char × List Char)
  | [] => none
  | c :: cs =>
    match tryMatchAt (c :: cs) with
    | some p => some p
    | none => scanRepo cs

/-- The characters of the suffix removed by `.replace(/\.git$/, '')`. -/
def gitSuffix : List Char := ['.', 'g', 'i', 't']

/-- `match[2].replace(/\.git$/, '')`: remove one trailing `.git`, if present. -/
def stripGit (r : List Char) : List Char :=
  if r.drop (r.length - 4) = gitSuffix then r.take (r.length - 4) else r

/-- `parseRepoURL(url)`: match the regex; on failure throw
`Error('Invalid GitHub repository URL')`; on success return
`{owner: match[1], repo: match[2].replace(/\.git$/, '')}`. -/
def parseRepoURL (url : List Char) : Except String RepoRef :=
  match scanRepo url with
  | none => Except.error ("Invalid GitHub repository URL")
  | some (o, r) => Except.ok ⟨o, stripGit r⟩

/-- The spec's characterization of a parsable input (written from the
spec's words, for comparison with the source-derived parser): the string
contains the domain token followed by two nonempty slash-free path
segments `<owner>/<repo>`. -/
def specRepoPattern (s : List Char) : Prop :=
  ∃ pre owner repo rest,
    s = pre ++ ghToken ++ (owner ++ '/' :: (repo ++ rest)) ∧
    owner ≠ [] ∧ '/' ∉ owner ∧ repo ≠ [] ∧ '/' ∉ repo

/-- JavaScript `x || d` on an optional string `x` (absent or present):
the default is used when `x` is absent (`null`/`undefined`) or the empty
string, both falsy. -/
def jsOrString (s : Option String) (d : String) : String :=
  match s with
  | some v => if v = "" then d else v
  | none => d

/-- `getStatusClass(conclusion, status)`: `status` wins when it is
`in_progress` or `queued` (and is returned itself); otherwise switch on
`conclusion` with default `status || 'queued'`.  `none` models a
`null`/`undefined` argument. -/
def getStatusClass (conclusion status : Option String) : String :=
  if status = some ("in_progress") then "in_progress"
  else if status = some ("queued") then "queued"
  else if conclusion = some ("success") then "success"
  else if conclusion = some ("failure") then "failure"
  else if conclusion = some ("cancelled") then "cancelled"
  else jsOrString status ("queued")

/-- `getStatusText(conclusion, status)`: same precedence as
`getStatusClass`, with display labels and default `status || 'Unknown'`. -/
def getStatusText (conclusion status : Option String) : String :=
  if status = some ("in_progress") then "In Progress"
  else if status = some ("queued") then "Queued"
  else if conclusion = some ("success") then "Success"
  else if conclusion = some ("failure") then "Failure"
  else if conclusion = some ("cancelled") then "Cancelled"
  else jsOrString status ("Unknown")

/-- `formatDate(dateString)`: bucket `now - date` (milliseconds, possibly
negative for future dates) by floor division.  `localeDateString` stands
for the environment-dependent `date.toLocaleDateString()`; `nowMs` and
`dateMs` are the epoch-millisecond values of `new Date()` and the parsed
`dateString`. -/
def formatDate (localeDateString : Int → String) (nowMs dateMs : Int) : String :=
  let diffMs := nowMs - dateMs
  let diffMins := Int.fdiv diffMs 60000
  let diffHours := Int.fdiv diffMs 3600000
  let diffDays := Int.fdiv diffMs 86400000
  if diffMins < 1 then "just now"
  else if diffMins < 60 then
    toString diffMins ++ " minute" ++ (if 1 < diffMins then "s" else "") ++ " ago"
  else if diffHours < 24 then
    toString diffHours ++ " hour" ++ (if 1 < diffHours then "s" else "") ++ " ago"
  else if diffDays < 7 then
    toString diffDays ++ " day" ++ (if 1 < diffDays then "s" else "") ++ " ago"
  else localeDateString dateMs

theorem mapGet_mapSet_self (cache : List (String × CacheEntry)) (key : String) (e : CacheEntry) :
    mapGet (mapSet cache key e) key = some e := by
  induction cache with
  | nil => simp [mapSet, mapGet]
  | cons kv rest ih =>
    obtain ⟨k, e0⟩ := kv
    by_cases hk : k = key
    · simp [mapSet, hk, mapGet]
    · simp [mapSet, hk, mapGet, ih]

/-- Claim C3: `getCached` returns the stored payload exactly when an entry
for the key exists and `now - storedAt < TTL`; an entry of age at least the
TTL behaves as a miss.  The lookup is a pure read of the cache (its
embedding consumes the cache and returns only the optional payload), so the
stale entry is neither returned nor evicted. -/
theorem getCached_spec (cache : Cache) (now : Nat) (key : String) :
    (∀ v, getCached cache now key = some v ↔
      ∃ e, mapGet cache key = some e ∧ now - e.timestamp < cacheTimeout ∧ v = e.data) ∧
    (∀ e, mapGet cache key = some e → cacheTimeout ≤ now - e.timestamp →
      getCached cache now key = none) := by
  constructor
  · intro v
    constructor
    · intro h
      cases hg : mapGet cache key with
      | none => simp [getCached, hg] at h
      | some e =>
        by_cases ht : now - e.timestamp < cacheTimeout
        · simp [getCached, hg, ht] at h
          exact ⟨e, rfl, ht, h.symm⟩
        · simp [getCached, hg, ht] at h
    · rintro ⟨e, hg, ht, hv⟩
      simp [getCached, hg, ht, hv]
  · intro e hg ht
    simp [getCached, hg]
    omega

/-- Witness for C3: a lookup 300100 ms after storing (TTL is 300000 ms)
misses even though the entry is still present. -/
theorem getCached_spec_witness :
    getCached ([(("k" : String), ⟨Json.str ("p"), 100⟩)]) 300200 ("k") = none :=
  (getCached_spec ([(("k" : String), ⟨Json.str ("p"), 100⟩)]) 300200 ("k")).2
    ⟨Json.str ("p"), 100⟩ rfl (by decide)

/-- Claim C4: `setCache` unconditionally replaces any existing entry for
the key with the new payload and a fresh timestamp, and a `getCached` for
the same key at any time within the TTL of the write returns the payload
unchanged. -/
theorem setCache_roundtrip (cache : Cache) (now later : Nat) (key : String) (v : Json)
    (h : later - now < cacheTimeout) :
    mapGet (setCache cache now key v) key = some ⟨v, now⟩ ∧
    getCached (setCache cache now key v) later key = some v := by
  refine ⟨mapGet_mapSet_self cache key ⟨v, now⟩, ?_⟩
  simp [getCached, setCache, mapGet_mapSet_self, h]

/-- Witness for C4: overwriting an existing entry for the key and reading
it back immediately returns the new payload. -/
theorem setCache_roundtrip_witness :
    mapGet (setCache ([(("k" : String), ⟨Json.null, 0⟩)]) 10 ("k") (Json.arr [])) ("k") =
      some ⟨Json.arr [], 10⟩ ∧
    getCached (setCache ([(("k" : String), ⟨Json.null, 0⟩)]) 10 ("k") (Json.arr [])) 10 ("k") =
      some (Json.arr []) :=
  setCache_roundtrip ([(("k" : String), ⟨Json.null, 0⟩)]) 10 10 ("k") (Json.arr []) (by decide)

theorem requestFetch_networkCalled (cache : Cache) (now : Nat) (key : String) (net : FetchResult) :
    (requestFetch cache now key net).networkCalled = true := by
  cases net with
  | success status body =>
    by_cases hok : responseOk status <;> simp [requestFetch, hok]
  | transportError msg => rfl

theorem request_networkCalled_iff (cache : Cache) (now : Nat) (endpoint : String)
    (net : FetchResult) :
    (request cache now endpoint net).networkCalled = true ↔
    (∀ d, getCached cache now endpoint = some d → jsTruthy d = false) := by
  cases hg : getCached cache now endpoint with
  | none =>
    constructor
    · intro _ d hd; simp at hd
    · intro _; simp [request, hg, requestFetch_networkCalled]
  | some d =>
    by_cases ht : jsTruthy d = true
    · constructor
      · intro hc; exfalso; simp [request, hg, ht] at hc
      · intro hall; exact absurd (hall d rfl) (by simp [ht])
    · constructor
      · intro _ d' hd'
        have hd := Option.some.inj hd'
        subst hd
        simpa using ht
      · intro _; simp [request, hg, ht, requestFetch_networkCalled]

theorem getCached_later (cache : Cache) (now later : Nat) (key : String) (h : now ≤ later) :
    getCached cache later key = none ∨ getCached cache later key = getCached cache now key := by
  cases hg : mapGet cache key with
  | none => left; simp [getCached, hg]
  | some e =>
    by_cases ht : later - e.timestamp < cacheTimeout
    · right
      have ht2 : now - e.timestamp < cacheTimeout := by omega
      simp [getCached, hg, ht, ht2]
    · left; simp [getCached, hg, ht]

/-- Counterexample to claim C1 as stated: the cache holds a fresh entry for
the endpoint (a hit in the claim's sense, age 0 < TTL) whose payload is the
JSON value `null`; `getCached` returns it, yet `request` performs the
network call anyway, because `if (cached)` is a JavaScript truthiness test
and `null` is falsy. -/
theorem request_hit_refetch_cex :
    getCached ([(("/repos/acme/widgets" : String), ⟨Json.null, 0⟩)]) 0
      ("/repos/acme/widgets") = some Json.null ∧
    (request ([(("/repos/acme/widgets" : String), ⟨Json.null, 0⟩)]) 0 ("/repos/acme/widgets")
      (FetchResult.success 200 (Json.obj []))).networkCalled = true :=
  ⟨rfl, rfl⟩

/-- Claim C1, amended: `request` consults the cache under the exact
endpoint-path string; on a hit whose payload is truthy as a JavaScript
value it returns the cached payload with no network call and an unchanged
cache; on a miss — or a hit whose payload is falsy (`null`, `false`, `0`,
`""`) — it performs the network call and, on success, stores the parsed
JSON body under the endpoint key before returning it. -/
theorem request_cache_consultation (cache : Cache) (now : Nat) (endpoint : String)
    (net : FetchResult) :
    (∀ d, getCached cache now endpoint = some d → jsTruthy d = true →
      request cache now endpoint net = ⟨Except.ok d, cache, false⟩) ∧
    ((∀ d, getCached cache now endpoint = some d → jsTruthy d = false) →
      (request cache now endpoint net).networkCalled = true ∧
      ∀ status body, net = FetchResult.success status body → responseOk status = true →
        request cache now endpoint net =
          ⟨Except.ok body, setCache cache now endpoint body, true⟩) := by
  constructor
  · intro d hd ht
    simp [request, hd, ht]
  · intro hmiss
    refine ⟨(request_networkCalled_iff cache now endpoint net).mpr hmiss, ?_⟩
    intro status body hnet hok
    subst hnet
    cases hg : getCached cache now endpoint with
    | none => simp [request, hg, requestFetch, hok]
    | some d =>
      have hf := hmiss d hg
      simp [request, hg, hf, requestFetch, hok]

/-- Witness for the amended C1: a fresh truthy (object) payload is served
from the cache with no network call, even though the oracle says the
network would fail. -/
theorem request_cache_consultation_witness :
    request ([(("/r" : String), ⟨Json.obj [], 5⟩)]) 5 ("/r") (FetchResult.transportError ("x")) =
      ⟨Except.ok (Json.obj []), ([(("/r" : String), ⟨Json.obj [], 5⟩)]), false⟩ :=
  (request_cache_consultation ([(("/r" : String), ⟨Json.obj [], 5⟩)]) 5 ("/r")
    (FetchResult.transportError ("x"))).1 (Json.obj []) rfl rfl

/-- Claim C2: when the network call made by `request` fails (non-ok HTTP
status or transport rejection), the cache is left completely unchanged and
the error is propagated; consequently a later call for the same key (with
any later clock value) performs the network call again instead of being
short-circuited by a stored failure. -/
theorem request_failure_leaves_cache (cache : Cache) (now later : Nat) (endpoint : String)
    (net retry : FetchResult) (hle : now ≤ later) (hfail : fetchFails net = true)
    (hcalled : (request cache now endpoint net).networkCalled = true) :
    (request cache now endpoint net).cache = cache ∧
    (request cache now endpoint net).result = Except.error (fetchFailureError net) ∧
    (request cache later endpoint retry).networkCalled = true := by
  have hmiss := (request_networkCalled_iff cache now endpoint net).mp hcalled
  have hmain : (requestFetch cache now endpoint net).cache = cache ∧
      (requestFetch cache now endpoint net).result = Except.error (fetchFailureError net) := by
    cases net with
    | success status body =>
      have hok : responseOk status = false := by simpa [fetchFails] using hfail
      simp [requestFetch, hok, fetchFailureError]
    | transportError msg => simp [requestFetch, fetchFailureError]
  have hreq : request cache now endpoint net = requestFetch cache now endpoint net := by
    cases hg : getCached cache now endpoint with
    | none => simp [request, hg]
    | some d => simp [request, hg, hmiss d hg]
  refine ⟨by rw [hreq]; exact hmain.1, by rw [hreq]; exact hmain.2, ?_⟩
  apply (request_networkCalled_iff cache later endpoint retry).mpr
  intro d hd
  rcases getCached_later cache now later endpoint hle with hnone | heq
  · rw [hnone] at hd; exact absurd hd (by simp)
  · rw [heq] at hd; exact hmiss d hd

/-- Witness for C2: a 500 response on an empty cache leaves the cache
empty, surfaces the status, and a retry 1000 ms later still reaches the
network. -/
theorem request_failure_leaves_cache_witness :
    (request ([] : Cache) 0 ("/x") (FetchResult.success 500 Json.null)).cache = ([] : Cache) ∧
    (request ([] : Cache) 0 ("/x") (FetchResult.success 500 Json.null)).result =
      Except.error (ReqError.apiError 500) ∧
    (request ([] : Cache) 1000 ("/x") (FetchResult.success 200 (Json.obj []))).networkCalled =
      true := by
  exact request_failure_leaves_cache ([] : Cache) 0 1000 ("/x")
    (FetchResult.success 500 Json.null) (FetchResult.success 200 (Json.obj []))
    (by decide) rfl rfl

/-- Claim C5: on a cache miss, a non-2xx HTTP response makes `request` fail
with the API error carrying the numeric status code, a transport failure
makes it fail with the propagated network error, and the carried status
keeps distinct codes distinguishable in the surfaced error message
(403 and 429 rate-limiting versus 404 not-found). -/
theorem request_error_taxonomy (cache : Cache) (now : Nat) (endpoint : String)
    (status : Nat) (body : Json) (msg : String)
    (hmiss : getCached cache now endpoint = none) :
    (responseOk status = false →
      (request cache now endpoint (FetchResult.success status body)).result =
        Except.error (ReqError.apiError status)) ∧
    (request cache now endpoint (FetchResult.transportError msg)).result =
      Except.error (ReqError.networkError msg) ∧
    (ReqError.apiError 403).message ≠ (ReqError.apiError 404).message ∧
    (ReqError.apiError 429).message ≠ (ReqError.apiError 404).message ∧
    (ReqError.apiError 403).message ≠ (ReqError.apiError 429).message := by
  refine ⟨?_, ?_, by decide, by decide, by decide⟩
  · intro hok
    simp [request, hmiss, requestFetch, hok]
  · simp [request, hmiss, requestFetch]

/-- Witness for C5: a 404 on an empty cache surfaces as the API error
carrying 404. -/
theorem request_error_taxonomy_witness :
    (request ([] : Cache) 0 ("/missing") (FetchResult.success 404 Json.null)).result =
      Except.error (ReqError.apiError 404) :=
  (request_error_taxonomy ([] : Cache) 0 ("/missing") 404 Json.null ("m") rfl).1 rfl

/-- Claim C8: `getStatusClass` and `getStatusText` apply the same
precedence: a status of `in_progress` or `queued` wins regardless of the
conclusion (class is the status itself, label `In Progress`/`Queued`);
otherwise the conclusions `success`, `failure`, `cancelled` map to
themselves as class and to `Success`/`Failure`/`Cancelled` as label; any
other or null conclusion falls back to the status value, with the literal
defaults `queued` (class) and `Unknown` (label) when the status is itself
absent (null, or the equally falsy empty string). -/
theorem classifyStatus_spec (conclusion status : Option String) :
    (status = some ("in_progress") →
      getStatusClass conclusion status = "in_progress" ∧
      getStatusText conclusion status = "In Progress") ∧
    (status = some ("queued") →
      getStatusClass conclusion status = "queued" ∧
      getStatusText conclusion status = "Queued") ∧
    (status ≠ some ("in_progress") → status ≠ some ("queued") →
      (conclusion = some ("success") →
        getStatusClass conclusion status = "success" ∧
        getStatusText conclusion status = "Success") ∧
      (conclusion = some ("failure") →
        getStatusClass conclusion status = "failure" ∧
        getStatusText conclusion status = "Failure") ∧
      (conclusion = some ("cancelled") →
        getStatusClass conclusion status = "cancelled" ∧
        getStatusText conclusion status = "Cancelled") ∧
      (conclusion ≠ some ("success") → conclusion ≠ some ("failure") →
        conclusion ≠ some ("cancelled") →
        (∀ v, status = some v → v ≠ "" →
          getStatusClass conclusion status = v ∧ getStatusText conclusion status = v) ∧
        ((status = none ∨ status = some ("")) →
          getStatusClass conclusion status = "queued" ∧
          getStatusText conclusion status = "Unknown"))) := by
  refine ⟨?_, ?_, ?_⟩
  · intro h; subst h; simp [getStatusClass, getStatusText]
  · intro h; subst h; simp [getStatusClass, getStatusText]
  · intro h1 h2
    refine ⟨?_, ?_, ?_, ?_⟩
    · intro hc; subst hc; simp [getStatusClass, getStatusText, h1, h2]
    · intro hc; subst hc; simp [getStatusClass, getStatusText, h1, h2]
    · intro hc; subst hc; simp [getStatusClass, getStatusText, h1, h2]
    · intro hc1 hc2 hc3
      constructor
      · intro v hv hne
        subst hv
        simp [getStatusClass, getStatusText, jsOrString, h1, h2, hc1, hc2, hc3, hne]
      · intro hd
        rcases hd with hn | he
        · subst hn; simp [getStatusClass, getStatusText, jsOrString, hc1, hc2, hc3]
        · subst he; simp [getStatusClass, getStatusText, jsOrString, hc1, hc2, hc3]

/-- Witness for C8: the spec's worked example — a completed successful run
classifies as class `success` with label `Success`. -/
theorem classifyStatus_spec_witness :
    getStatusClass (some ("success")) (some ("completed")) = "success" ∧
    getStatusText (some ("success")) (some ("completed")) = "Success" :=
  ((classifyStatus_spec (some ("success")) (some ("completed"))).2.2
    (by decide) (by decide)).1 rfl

/-- Claim C9: for past timestamps, `formatDate` buckets the delta by floor
division with half-open lower bounds: under 1 minute `just now`; under 60
minutes a minute count; under 24 hours an hour count; under 7 days a day
count; at or above 7 days the locale-formatted absolute date.  In
particular a delta of exactly 60 minutes (3600000 ms) satisfies the hours
bucket's bounds, not the minutes bucket's. -/
theorem formatDate_buckets (loc : Int → String) (nowMs dateMs : Int) (h : dateMs ≤ nowMs) :
    (nowMs - dateMs < 60000 → formatDate loc nowMs dateMs = "just now") ∧
    (60000 ≤ nowMs - dateMs → nowMs - dateMs < 3600000 →
      formatDate loc nowMs dateMs =
        toString ((nowMs - dateMs).fdiv 60000) ++ " minute" ++
          (if 1 < (nowMs - dateMs).fdiv 60000 then "s" else "") ++ " ago") ∧
    (3600000 ≤ nowMs - dateMs → nowMs - dateMs < 86400000 →
      formatDate loc nowMs dateMs =
        toString ((nowMs - dateMs).fdiv 3600000) ++ " hour" ++
          (if 1 < (nowMs - dateMs).fdiv 3600000 then "s" else "") ++ " ago") ∧
    (86400000 ≤ nowMs - dateMs → nowMs - dateMs < 604800000 →
      formatDate loc nowMs dateMs =
        toString ((nowMs - dateMs).fdiv 86400000) ++ " day" ++
          (if 1 < (nowMs - dateMs).fdiv 86400000 then "s" else "") ++ " ago") ∧
    (604800000 ≤ nowMs - dateMs → formatDate loc nowMs dateMs = loc dateMs) := by
  have e1 : (nowMs - dateMs).fdiv 60000 = (nowMs - dateMs) / 60000 :=
    Int.fdiv_eq_ediv _ (by omega)
  have e2 : (nowMs - dateMs).fdiv 3600000 = (nowMs - dateMs) / 3600000 :=
    Int.fdiv_eq_ediv _ (by omega)
  have e3 : (nowMs - dateMs).fdiv 86400000 = (nowMs - dateMs) / 86400000 :=
    Int.fdiv_eq_ediv _ (by omega)
  refine ⟨?_, ?_, ?_, ?_, ?_⟩
  · intro hb
    simp only [formatDate]
    rw [if_pos (by rw [e1]; omega)]
  · intro ha hb
    simp only [formatDate]
    rw [if_neg (by rw [e1]; omega), if_pos (by rw [e1]; omega)]
  · intro ha hb
    simp only [formatDate]
    rw [if_neg (by rw [e1]; omega), if_neg (by rw [e1]; omega), if_pos (by rw [e2]; omega)]
  · intro ha hb
    simp only [formatDate]
    rw [if_neg (by rw [e1]; omega), if_neg (by rw [e1]; omega), if_neg (by rw [e2]; omega),
      if_pos (by rw [e3]; omega)]
  · intro ha
    simp only [formatDate]
    rw [if_neg (by rw [e1]; omega), if_neg (by rw [e1]; omega), if_neg (by rw [e2]; omega),
      if_neg (by rw [e3]; omega)]

/-- Witness for C9, at the boundary the claim singles out: a delta of
exactly 60 minutes renders as `1 hour ago`, not as a minute count. -/
theorem formatDate_buckets_witness :
    formatDate (fun _ => "1/1/2026") 3600000 0 = "1 hour ago" := by
  have h := (formatDate_buckets (fun _ => "1/1/2026") 3600000 0 (by decide)).2.2.1
    (by decide) (by decide)
  rw [h]; decide

/-- Claim C10: a timestamp equal to the current time or in the future
(non-positive delta) renders as `just now`: the floored minute count is
non-positive, so the first bucket applies and no negative relative phrase
or absolute date is produced. -/
theorem formatDate_future_just_now (loc : Int → String) (nowMs dateMs : Int)
    (h : nowMs ≤ dateMs) : formatDate loc nowMs dateMs = "just now" := by
  have e1 : (nowMs - dateMs).fdiv 60000 ≤ 0 := by
    rw [Int.fdiv_eq_ediv _ (by omega)]; omega
  simp only [formatDate]
  rw [if_pos (by omega)]

/-- Witness for C10: a timestamp 5 seconds in the future renders as
`just now`. -/
theorem formatDate_future_just_now_witness :
    formatDate (fun _ => "1/1/2026") 0 5000 = "just now" :=
  formatDate_future_just_now (fun _ => "1/1/2026") 0 5000 (by decide)

theorem takeSeg_append_eq (l : List Char) : (takeSeg l).1 ++ (takeSeg l).2 = l := by
  induction l with
  | nil => rfl
  | cons c cs ih =>
    by_cases hc : c = '/'
    · simp [takeSeg, hc]
    · simp [takeSeg, hc, ih]

theorem slash_not_mem_takeSeg (l : List Char) : '/' ∉ (takeSeg l).1 := by
  induction l with
  | nil => simp [takeSeg]
  | cons c cs ih =>
    by_cases hc : c = '/'
    · simp [takeSeg, hc]
    · simp only [takeSeg, if_neg hc]
      intro h
      rcases List.mem_cons.mp h with h1 | h1
      · exact hc h1.symm
      · exact ih h1

theorem takeSeg_snd_cases (l : List Char) :
    (takeSeg l).2 = [] ∨ ∃ r, (takeSeg l).2 = '/' :: r := by
  induction l with
  | nil => left; rfl
  | cons c cs ih =>
    by_cases hc : c = '/'
    · subst hc; right; exact ⟨cs, by simp [takeSeg]⟩
    · simp only [takeSeg, if_neg hc]
      exact ih

theorem takeSeg_no_slash (a r : List Char) (h : '/' ∉ a) :
    takeSeg (a ++ '/' :: r) = (a, '/' :: r) := by
  induction a with
  | nil => simp [takeSeg]
  | cons c cs ih =>
    have hc : ¬ c = '/' := by
      intro hh; subst hh; exact h (List.mem_cons_self _ _)
    have h2 : '/' ∉ cs := fun hh => h (List.mem_cons_of_mem _ hh)
    simp [takeSeg, hc, ih h2]

theorem takeSeg_fst_ne_nil (c : Char) (cs : List Char) (h : ¬ c = '/') :
    (takeSeg (c :: cs)).1 ≠ [] := by
  simp [takeSeg, h]

theorem matchSegments_sound (t o r : List Char) (h : matchSegments t = some (o, r)) :
    ∃ rest, t = o ++ '/' :: (r ++ rest) ∧ o ≠ [] ∧ '/' ∉ o ∧ r ≠ [] ∧ '/' ∉ r := by
  unfold matchSegments at h
  by_cases h1 : (takeSeg t).1 = []
  · rw [if_pos h1] at h; exact absurd h (by simp)
  · rw [if_neg h1] at h
    cases h2 : (takeSeg t).2 with
    | nil => rw [h2] at h; exact absurd h (by simp)
    | cons c r2 =>
      simp only [h2] at h
      by_cases h3 : (takeSeg r2).1 = []
      · rw [if_pos h3] at h; exact absurd h (by simp)
      · rw [if_neg h3] at h
        have hp := Option.some.inj h
        have ho1 : (takeSeg t).1 = o := congrArg Prod.fst hp
        have ho2 : (takeSeg r2).1 = r := congrArg Prod.snd hp
        have hc : c = '/' := by
          rcases takeSeg_snd_cases t with hs | ⟨r', hs⟩
          · rw [h2] at hs; exact absurd hs (by simp)
          · rw [h2] at hs
            exact (List.cons.inj hs).1
        refine ⟨(takeSeg r2).2, ?_, ho1 ▸ h1, ho1 ▸ slash_not_mem_takeSeg t,
          ho2 ▸ h3, ho2 ▸ slash_not_mem_takeSeg r2⟩
        have e1 := takeSeg_append_eq t
        have e2 := takeSeg_append_eq r2
        rw [ho1, h2, hc] at e1
        rw [ho2] at e2
        have h5 : r2 = r ++ (takeSeg r2).2 := e2.symm
        rw [← h5]
        exact e1.symm

theorem matchSegments_complete (owner repo rest : List Char)
    (h1 : owner ≠ []) (h2 : '/' ∉ owner) (h3 : repo ≠ []) (h4 : '/' ∉ repo) :
    (matchSegments (owner ++ '/' :: (repo ++ rest))).isSome = true := by
  have ht := takeSeg_no_slash owner (repo ++ rest) h2
  cases repo with
  | nil => exact absurd rfl h3
  | cons d repo' =>
    have hd : ¬ d = '/' := by
      intro hh; subst hh; exact h4 (List.mem_cons_self _ _)
    have hne := takeSeg_fst_ne_nil d (repo' ++ rest) hd
    have ht2 : takeSeg (owner ++ '/' :: d :: (repo' ++ rest)) =
        (owner, '/' :: d :: (repo' ++ rest)) := by
      simpa [List.cons_append] using ht
    simp only [matchSegments, ht2, List.cons_append]
    rw [if_neg h1, if_neg hne]
    rfl

theorem isPrefixOf_append_self (l t : List Char) : l.isPrefixOf (l ++ t) = true := by
  induction l with
  | nil => simp [List.isPrefixOf]
  | cons c cs ih => simp [List.isPrefixOf, ih]

theorem isPrefixOf_eq_append (l : List Char) : ∀ s : List Char, l.isPrefixOf s = true →
    s = l ++ s.drop l.length := by
  induction l with
  | nil => intro s _; simp
  | cons c cs ih =>
    intro s h
    cases s with
    | nil => simp [List.isPrefixOf] at h
    | cons b bs =>
      simp only [List.isPrefixOf, Bool.and_eq_true, beq_iff_eq] at h
      obtain ⟨hcb, hrest⟩ := h
      subst hcb
      have hib := ih bs hrest
      simp only [List.length_cons, List.drop_succ_cons, List.cons_append]
      exact congrArg (c :: ·) hib

theorem tryMatchAt_cons_token (tail : List Char) :
    tryMatchAt ('g' :: (ghRest ++ tail)) = matchSegments tail := by
  have hp : ghToken.isPrefixOf (ghToken ++ tail) = true := isPrefixOf_append_self ghToken tail
  show tryMatchAt (ghToken ++ tail) = matchSegments tail
  simp [tryMatchAt, hp, List.drop_left]

theorem scanRepo_cons_isSome (c : Char) (cs : List Char)
    (h : (scanRepo cs).isSome = true) : (scanRepo (c :: cs)).isSome = true := by
  unfold scanRepo
  cases ht : tryMatchAt (c :: cs) with
  | some p => simp
  | none => simpa using h

theorem scanRepo_sound (s : List Char) : ∀ o r : List Char, scanRepo s = some (o, r) →
    ∃ pre rest, s = pre ++ ghToken ++ (o ++ '/' :: (r ++ rest)) ∧
      o ≠ [] ∧ '/' ∉ o ∧ r ≠ [] ∧ '/' ∉ r := by
  induction s with
  | nil => intro o r h; simp [scanRepo] at h
  | cons c cs ih =>
    intro o r h
    unfold scanRepo at h
    cases ht : tryMatchAt (c :: cs) with
    | some p =>
      rw [ht] at h
      have hp : p = (o, r) := Option.some.inj h
      subst hp
      unfold tryMatchAt at ht
      by_cases hpre : ghToken.isPrefixOf (c :: cs) = true
      · rw [if_pos hpre] at ht
        have heq := isPrefixOf_eq_append ghToken (c :: cs) hpre
        obtain ⟨rest, htt, h1, h2, h3, h4⟩ := matchSegments_sound _ o r ht
        refine ⟨[], rest, ?_, h1, h2, h3, h4⟩
        simpa using heq.trans (congrArg (fun x => ghToken ++ x) htt)
      · rw [if_neg hpre] at ht; exact absurd ht (by simp)
    | none =>
      rw [ht] at h
      obtain ⟨pre, rest, heq, h1, h2, h3, h4⟩ := ih o r h
      refine ⟨c :: pre, rest, ?_, h1, h2, h3, h4⟩
      simp [heq]

theorem scanRepo_complete (pre tail : List Char) (h : (matchSegments tail).isSome = true) :
    (scanRepo (pre ++ ghToken ++ tail)).isSome = true := by
  induction pre with
  | nil =>
    rw [List.nil_append]
    rw [show ghToken ++ tail = 'g' :: (ghRest ++ tail) from rfl]
    unfold scanRepo
    rw [tryMatchAt_cons_token]
    cases hm : matchSegments tail with
    | none => rw [hm] at h; simp at h
    | some p => simp
  | cons c pre2 ih =>
    rw [show ((c :: pre2) ++ ghToken ++ tail) = c :: (pre2 ++ ghToken ++ tail) from by simp]
    exact scanRepo_cons_isSome c _ ih

theorem stripGit_ne_nil (r : List Char) (h : r ≠ []) (hne : r ≠ gitSuffix) :
    stripGit r ≠ [] := by
  unfold stripGit
  by_cases hs : r.drop (r.length - 4) = gitSuffix
  · rw [if_pos hs]
    intro htake
    have hall := List.take_append_drop (r.length - 4) r
    rw [htake, hs] at hall
    exact hne (by simpa using hall.symm)
  · rw [if_neg hs]; exact h

/-- Claim C6: `parseRepoURL` succeeds exactly on inputs containing the
domain token followed by two nonempty slash-free path segments
`<owner>/<repo>`, returning an owner and a repo taken from such a
decomposition with one trailing `.git` suffix stripped from the matched
repo segment; on every other input it fails with the
`Invalid GitHub repository URL` error. -/
theorem parseRepoURL_spec (s : List Char) :
    ((∃ ref, parseRepoURL s = Except.ok ref) ↔ specRepoPattern s) ∧
    (∀ ref, parseRepoURL s = Except.ok ref →
      ∃ pre owner repo rest,
        s = pre ++ ghToken ++ (owner ++ '/' :: (repo ++ rest)) ∧
        owner ≠ [] ∧ '/' ∉ owner ∧ repo ≠ [] ∧ '/' ∉ repo ∧
        ref = ⟨owner, stripGit repo⟩) ∧
    (¬ specRepoPattern s → parseRepoURL s = Except.error ("Invalid GitHub repository URL")) := by
  have hsound : ∀ ref, parseRepoURL s = Except.ok ref →
      ∃ pre owner repo rest,
        s = pre ++ ghToken ++ (owner ++ '/' :: (repo ++ rest)) ∧
        owner ≠ [] ∧ '/' ∉ owner ∧ repo ≠ [] ∧ '/' ∉ repo ∧
        ref = ⟨owner, stripGit repo⟩ := by
    intro ref h
    unfold parseRepoURL at h
    cases hs : scanRepo s with
    | none => rw [hs] at h; exact absurd h (by simp)
    | some p =>
      obtain ⟨o, r⟩ := p
      simp only [hs] at h
      obtain ⟨pre, rest, heq, h1, h2, h3, h4⟩ := scanRepo_sound s o r hs
      exact ⟨pre, o, r, rest, heq, h1, h2, h3, h4, (Except.ok.inj h).symm⟩
  refine ⟨⟨?_, ?_⟩, hsound, ?_⟩
  · rintro ⟨ref, h⟩
    obtain ⟨pre, o, r, rest, heq, h1, h2, h3, h4, _⟩ := hsound ref h
    exact ⟨pre, o, r, rest, heq, h1, h2, h3, h4⟩
  · rintro ⟨pre, o, r, rest, heq, h1, h2, h3, h4⟩
    have hm := matchSegments_complete o r rest h1 h2 h3 h4
    have hscan := scanRepo_complete pre (o ++ '/' :: (r ++ rest)) hm
    rw [← heq] at hscan
    obtain ⟨p, hp⟩ := Option.isSome_iff_exists.mp hscan
    obtain ⟨o2, r2⟩ := p
    exact ⟨⟨o2, stripGit r2⟩, by simp [parseRepoURL, hp]⟩
  · intro hnp
    cases hs : scanRepo s with
    | none => simp [parseRepoURL, hs]
    | some p =>
      exfalso
      obtain ⟨o, r⟩ := p
      obtain ⟨pre, rest, heq, h1, h2, h3, h4⟩ := scanRepo_sound s o r hs
      exact hnp ⟨pre, o, r, rest, heq, h1, h2, h3, h4⟩

/-- Witness for C6: the valid reference URL for `acme/widgets.git` is
accepted by the parser, and therefore exhibits the two-segment pattern. -/
theorem parseRepoURL_spec_witness :
    specRepoPattern (("https://github.com/acme/widgets.git").data) :=
  ((parseRepoURL_spec (("https://github.com/acme/widgets.git").data)).1).mp
    ⟨⟨("acme").data, ("widgets").data⟩, rfl⟩

/-- Counterexample to claim C7 as stated: on the input
`github.com/a/.git` the parser succeeds, but the returned repo field is the
empty string, because the matched repo segment is literally `.git` and the
`\.git$` replacement strips all of it. -/
theorem parseRepoURL_empty_repo_cex :
    parseRepoURL (("github.com/a/.git").data) = Except.ok ⟨['a'], []⟩ := rfl

/-- Claim C7, amended: whenever `parseRepoURL` succeeds, the owner field is
non-empty, and the repo field is also non-empty provided the matched repo
segment is not literally `.git` (in that single case the repo field is the
empty string). -/
theorem parseRepoURL_fields (s : List Char) (ref : RepoRef)
    (h : parseRepoURL s = Except.ok ref) :
    ref.owner ≠ [] ∧
    (∀ o seg, scanRepo s = some (o, seg) → seg ≠ gitSuffix → ref.repo ≠ []) := by
  unfold parseRepoURL at h
  cases hs : scanRepo s with
  | none => rw [hs] at h; exact absurd h (by simp)
  | some p =>
    obtain ⟨o, r⟩ := p
    simp only [hs] at h
    have href : ref = ⟨o, stripGit r⟩ := (Except.ok.inj h).symm
    subst href
    obtain ⟨pre, rest, heq, h1, h2, h3, h4⟩ := scanRepo_sound s o r hs
    refine ⟨h1, ?_⟩
    intro o2 seg hseg hne
    have hp : (o, r) = (o2, seg) := Option.some.inj hseg
    have hr : r = seg := congrArg Prod.snd hp
    subst hr
    exact stripGit_ne_nil r h3 hne

/-- Witness for the amended C7: parsing `acme/widgets.git` gives a
non-empty owner and (the matched segment `widgets.git` differing from
`.git`) a non-empty repo. -/
theorem parseRepoURL_fields_witness :
    (RepoRef.mk (("acme").data) (("widgets").data)).owner ≠ [] ∧
    (RepoRef.mk (("acme").data) (("widgets").data)).repo ≠ [] :=
  ⟨(parseRepoURL_fields (("https://github.com/acme/widgets.git").data)
      ⟨("acme").data, ("widgets").data⟩ rfl).1,
    (parseRepoURL_fields (("https://github.com/acme/widgets.git").data)
      ⟨("acme").data, ("widgets").data⟩ rfl).2 (("acme").data) (("widgets.git").data)
      rfl (by decide)⟩
